import Mathlib

/-!
Verification of the EtiquetasRural label-file generator.

The repository is a React application whose core logic is: sanitizing and
word-wrapping product descriptions, parsing a pasted tab-separated table into
label records, and serializing the records into Honeywell-Fingerprint command
blocks.  JS strings are modelled as `List Char`, JS numbers that hold parsed
integer quantities as `Int`, and `Date.now()` as an explicit `now : Nat`
parameter.  Each definition below mirrors one function of the source.
-/

namespace EtiquetasRural

/-- JS whitespace (the set recognised by `String.prototype.trim` and by
`parseInt`'s leading-whitespace skipping). -/
def isJsWs (c : Char) : Bool :=
  let n := c.toNat
  (9 ≤ n && n ≤ 13) || n == 32 || n == 0xA0 || n == 0x1680 ||
  (0x2000 ≤ n && n ≤ 0x200A) || n == 0x2028 || n == 0x2029 ||
  n == 0x202F || n == 0x205F || n == 0x3000 || n == 0xFEFF

/-- Model of `String.prototype.trim`: drop JS whitespace from both ends. -/
def jsTrim (l : List Char) : List Char :=
  ((l.dropWhile isJsWs).reverse.dropWhile isJsWs).reverse

/-- Model of `String.prototype.split(sep)` for a one-character separator:
`"".split(sep)` is `[""]`, and separators delimit (possibly empty) fields. -/
def splitOnChar (sep : Char) : List Char → List (List Char)
  | [] => [[]]
  | c :: cs =>
    let r := splitOnChar sep cs
    if c = sep then [] :: r
    else
      match r with
      | [] => [[c]]
      | h :: t => (c :: h) :: t

/-- Digit run to a natural number, most significant digit first. -/
def digitsToNat (ds : List Char) : Nat :=
  ds.foldl (fun acc c => acc * 10 + (c.toNat - 48)) 0

/-- Model of `parseInt(s, 10)`: skip leading whitespace, optional sign, then
the longest run of decimal digits; `none` models `NaN` (no digits). -/
def jsParseInt (s : List Char) : Option Int :=
  let s1 := s.dropWhile isJsWs
  match s1 with
  | '-' :: rest =>
    let ds := rest.takeWhile Char.isDigit
    if ds = [] then none else some (-(digitsToNat ds : Int))
  | '+' :: rest =>
    let ds := rest.takeWhile Char.isDigit
    if ds = [] then none else some ((digitsToNat ds : Int))
  | _ =>
    let ds := s1.takeWhile Char.isDigit
    if ds = [] then none else some ((digitsToNat ds : Int))

/-- Model of `Array.prototype.indexOf` on a list of strings: index of the
first equal element, `-1` when absent. -/
def jsIndexOf (l : List (List Char)) (x : List Char) : Int :=
  match l.findIdx? (fun y => y = x) with
  | some i => (i : Int)
  | none => -1

/-- The characters removed by `sanitizeString`'s regex (code points U+200B
through U+200D and U+FEFF): zero-width space, zero-width non-joiner,
zero-width joiner, byte-order mark. -/
def zeroWidthChar (c : Char) : Bool :=
  (0x200B ≤ c.toNat && c.toNat ≤ 0x200D) || c.toNat == 0xFEFF

/-- `sanitizeString` (src/App.tsx:14-18): remove all zero-width characters;
an empty ("falsy") input is returned as the empty string. -/
def sanitizeString (input : List Char) : List Char :=
  if input = [] then [] else input.filter (fun c => !zeroWidthChar c)

/-- Model of `String.prototype.lastIndexOf(" ", fromIdx)`: the largest index
`i ≤ fromIdx` holding a space, as an `Int`, `-1` when there is none. -/
def spaceIdxsLE (t : List Char) (m : Nat) : List Nat :=
  (List.range t.length).filter (fun i => i ≤ m ∧ t.get? i = some ' ')

/-- JS `t.lastIndexOf(" ", m)` as used by `splitDescription`. -/
def jsLastIndexOfSpace (t : List Char) (m : Nat) : Int :=
  match (spaceIdxsLE t m).getLast? with
  | some i => (i : Int)
  | none => -1

/-- `splitDescription` (src/App.tsx:28-49): wrap a description into two lines,
breaking at the last space at or before `maxLength` when possible. -/
def splitDescription (description : List Char) (maxLength : Nat) :
    List Char × List Char :=
  let trimmedDesc := jsTrim description
  if trimmedDesc.length ≤ maxLength then (trimmedDesc, [])
  else
    let splitPos0 : Int := jsLastIndexOfSpace trimmedDesc maxLength
    let splitPos : Nat := if splitPos0 ≤ 0 then maxLength else splitPos0.toNat
    (jsTrim (trimmedDesc.take splitPos), jsTrim (trimmedDesc.drop splitPos))

/-- `LabelData` (src/types): one validated record. -/
structure LabelData where
  id : List Char
  code : List Char
  description : List Char
  quantity : Int
deriving DecidableEq

/-- The structured parse errors reported via `setError`. -/
inductive ParseErr
  | insufficientRows
  | missingColumn (name : List Char)
  | noValidRows
deriving DecidableEq

/-- Outcome of one `handleProcessData` call: silent early return (`noop`),
an error message, or the freshly parsed records. -/
inductive ParseOutcome
  | noop
  | error (e : ParseErr)
  | ok (labels : List LabelData)
deriving DecidableEq

/-- The records of an outcome (empty for `noop` and errors). -/
def parsedRecords : ParseOutcome → List LabelData
  | .ok ls => ls
  | _ => []

def CODE_HEADER : List Char := "Número de artículo".data
def DESC_HEADER : List Char := "Descripción del artículo".data
def QTY_HEADER : List Char := "Cantidad de Etiquetas".data

/-- The id template `label-${Date.now()}-${index}` of a bulk-parsed record. -/
def parsedRowId (now idx : Nat) : List Char :=
  "label-".data ++ (toString now).data ++ "-".data ++ (toString idx).data

/-- Non-empty lines of the trimmed input:
`text.split("\n").filter((row) => row.trim() !== "")`. -/
def nonEmptyRows (input : List Char) : List (List Char) :=
  (splitOnChar '\n' (jsTrim input)).filter (fun r => jsTrim r ≠ [])

/-- The trimmed header cells: `rows[0].split("\t").map((h) => h.trim())`. -/
def headerCells (input : List Char) : List (List Char) :=
  (splitOnChar '\t' ((nonEmptyRows input).headD [])).map jsTrim

/-- One data row under the lenient quantity policy (src/App.tsx:110-127):
a missing or non-numeric quantity defaults to `0`. -/
def lenientRow (now codeIdx descIdx qtyIdx idx : Nat) (rowStr : List Char) :
    Option LabelData :=
  let columns := (splitOnChar '\t' rowStr).map jsTrim
  if columns.length > max codeIdx (max descIdx qtyIdx) then
    let code := columns.getD codeIdx []
    let description := sanitizeString (columns.getD descIdx [])
    let quantityStr := columns.getD qtyIdx []
    if code ≠ [] ∧ description ≠ [] then
      some { id := parsedRowId now idx, code := code, description := description,
             quantity := if quantityStr ≠ [] ∧ (jsParseInt quantityStr).isSome
                         then (jsParseInt quantityStr).getD 0 else 0 }
    else none
  else none

/-- One data row under the strict quantity policy (src/unnamed/part_000:107-125
and the second src/App.tsx variant): the row is skipped unless the quantity
field parses to an integer strictly greater than zero. -/
def strictRow (now codeIdx descIdx qtyIdx idx : Nat) (rowStr : List Char) :
    Option LabelData :=
  let columns := (splitOnChar '\t' rowStr).map jsTrim
  if columns.length > max codeIdx (max descIdx qtyIdx) then
    let code := columns.getD codeIdx []
    let description := sanitizeString (columns.getD descIdx [])
    let quantityStr := columns.getD qtyIdx []
    if code ≠ [] ∧ description ≠ [] ∧ quantityStr ≠ [] then
      match jsParseInt quantityStr with
      | some quantity =>
        if 0 < quantity then
          some { id := parsedRowId now idx, code := code,
                 description := description, quantity := quantity }
        else none
      | none => none
    else none
  else none

/-- `handleProcessData`, parameterised by the per-row policy.  Both source
variants share the early returns, the row-count check and the fixed-order
header validation verbatim; they differ only in the row body. -/
def parseCore (rowFn : Nat → Nat → Nat → Nat → Nat → List Char → Option LabelData)
    (input : List Char) (now : Nat) : ParseOutcome :=
  if input = [] then .noop
  else if jsTrim input = [] then .noop
  else
    let rows := nonEmptyRows input
    if rows.length < 2 then .error .insufficientRows
    else
      let headers := headerCells input
      let codeIndex := jsIndexOf headers CODE_HEADER
      let descIndex := jsIndexOf headers DESC_HEADER
      let qtyIndex := jsIndexOf headers QTY_HEADER
      if codeIndex = -1 then .error (.missingColumn CODE_HEADER)
      else if descIndex = -1 then .error (.missingColumn DESC_HEADER)
      else if qtyIndex = -1 then .error (.missingColumn QTY_HEADER)
      else
        let dataRows := rows.drop 1
        let newLabels := dataRows.enum.filterMap
          (fun p => rowFn now codeIndex.toNat descIndex.toNat qtyIndex.toNat p.1 p.2)
        if newLabels ≠ [] then .ok newLabels else .error .noValidRows

/-- `handleProcessData` of the first src/App.tsx variant (lenient quantities). -/
def parseLenient (input : List Char) (now : Nat) : ParseOutcome :=
  parseCore lenientRow input now

/-- `handleProcessData` of src/unnamed/part_000 and the second src/App.tsx
variant (strict quantities). -/
def parseStrict (input : List Char) (now : Nat) : ParseOutcome :=
  parseCore strictRow input now

/-- The `<STX><US>${qty}<ETX>` quantity-directive line of the placeholder
encoders, together with its CRLF terminator. -/
def qtyLine (qty : Int) : List Char :=
  "<STX><US>".data ++ (toString qty).data ++ "<ETX>\r\n".data

/-- `buildMainBlock` (src/unnamed/part_000:211-226): triple-layout data block
with three barcode fields and three duplicated text-field pairs. -/
def buildMainBlock (code line1 line2 : List Char) (qty : Int) : List Char :=
  "<STX><ESC>E1<CAN><ETX>\r\n".data ++
  "<STX><ESC>F\"BR0\"<LF>".data ++ code ++ "<ETX>\r\n".data ++
  "<STX><ESC>F\"BR1\"<LF>".data ++ code ++ "<ETX>\r\n".data ++
  "<STX><ESC>F\"BR2\"<LF>".data ++ code ++ "<ETX>\r\n".data ++
  "<STX><ESC>F\"TX3\"<LF>".data ++ line1 ++ "<ETX>\r\n".data ++
  "<STX><ESC>F\"TX4\"<LF>".data ++ line2 ++ "<ETX>\r\n".data ++
  "<STX><ESC>F\"TX5\"<LF>".data ++ line1 ++ "<ETX>\r\n".data ++
  "<STX><ESC>F\"TX6\"<LF>".data ++ line2 ++ "<ETX>\r\n".data ++
  "<STX><ESC>F\"TX7\"<LF>".data ++ line1 ++ "<ETX>\r\n".data ++
  "<STX><ESC>F\"TX8\"<LF>".data ++ line2 ++ "<ETX>\r\n".data ++
  qtyLine qty ++
  "<STX><ETB><ETX>\r\n".data

/-- `buildResidualBlock` (src/unnamed/part_000:228-237): reduced single-barcode,
single-text-field-pair block requesting exactly one copy. -/
def buildResidualBlock (code line1 line2 : List Char) : List Char :=
  "<STX><ESC>E1<CAN><ETX>\r\n".data ++
  "<STX><ESC>F\"BR0\"<LF>".data ++ code ++ "<ETX>\r\n".data ++
  "<STX><ESC>F\"TX3\"<LF>".data ++ line1 ++ "<ETX>\r\n".data ++
  "<STX><ESC>F\"TX4\"<LF>".data ++ line2 ++ "<ETX>\r\n".data ++
  qtyLine 1 ++
  "<STX><ETB><ETX>\r\n".data

/-- Block emission for one record under the split quantity policy
(src/unnamed/part_000:239-249): `quantity > 1` gives a main block requesting
`quantity - 1` copies plus a residual block; `quantity == 1` a single main
block requesting 1; anything else nothing. -/
def labelSplitBlocks (label : LabelData) : List (List Char) :=
  let p := splitDescription label.description 25
  if label.quantity > 1 then
    [buildMainBlock label.code p.1 p.2 (label.quantity - 1),
     buildResidualBlock label.code p.1 p.2]
  else if label.quantity = 1 then
    [buildMainBlock label.code p.1 p.2 1]
  else []

/-- The dynamic-block section of the split-policy document. -/
def splitPolicyBlocks (labels : List LabelData) : List (List Char) :=
  (labels.map labelSplitBlocks).flatten

/-- `buildLabelBlock` (first src/App.tsx variant, lines 159-176): single-layout
block carrying the record's exact quantity. -/
def buildLabelBlock (code line1 line2 : List Char) (qty : Int) : List Char :=
  "<STX><ESC>E1<CAN><ETX>\r\n".data ++
  "<STX><ESC>F\"BR0\"<LF>".data ++ code ++ "<ETX>\r\n".data ++
  "<STX><ESC>F\"TX3\"<LF>".data ++ line1 ++ "<ETX>\r\n".data ++
  "<STX><ESC>F\"TX4\"<LF>".data ++ line2 ++ "<ETX>\r\n".data ++
  qtyLine qty ++
  "<STX><ETB><ETX>\r\n".data

/-- The dynamic-block section of the exact-policy document of the first
src/App.tsx variant (lines 211-215): records with non-positive quantity are
filtered out, then one block per record. -/
def exactFilteredBlocks (labels : List LabelData) : List (List Char) :=
  (labels.filter (fun label => label.quantity > 0)).map (fun label =>
    let p := splitDescription label.description 25
    buildLabelBlock label.code p.1 p.2 label.quantity)

/-- One data block of the second src/App.tsx variant (lines 642-655): real
ASCII control characters, triple layout, no CRLF separators. -/
def tripleExactBlock (code line1 line2 : List Char) (qty : Int) : List Char :=
  "\x02\x1bE1\x18\x03".data ++
  "\x02\x1bF\"BR0\"\x0a".data ++ code ++ "\x03".data ++
  "\x02\x1bF\"BR1\"\x0a".data ++ code ++ "\x03".data ++
  "\x02\x1bF\"BR2\"\x0a".data ++ code ++ "\x03".data ++
  "\x02\x1bF\"TX3\"\x0a".data ++ line1 ++ "\x03".data ++
  "\x02\x1bF\"TX4\"\x0a".data ++ line2 ++ "\x03".data ++
  "\x02\x1bF\"TX5\"\x0a".data ++ line1 ++ "\x03".data ++
  "\x02\x1bF\"TX6\"\x0a".data ++ line2 ++ "\x03".data ++
  "\x02\x1bF\"TX7\"\x0a".data ++ line1 ++ "\x03".data ++
  "\x02\x1bF\"TX8\"\x0a".data ++ line2 ++ "\x03".data ++
  "\x02\x1f".data ++ (toString qty).data ++ "\x03".data ++
  "\x02\x17\x03".data

/-- The dynamic-block section of the second src/App.tsx variant
(lines 640-656): `labels.forEach` with no quantity filter. -/
def tripleExactBlocks (labels : List LabelData) : List (List Char) :=
  labels.map (fun label =>
    let p := splitDescription label.description 25
    tripleExactBlock label.code p.1 p.2 label.quantity)

/-- `AddLabelModal.handleAdd` (src/unnamed/part_002:29-44) combined with the
`onAdd` record construction (src/App.tsx:419-428): reject blank code or
description and negative quantities.  The numeric input is modelled as an
integer; the `isNaN` guard has no counterpart on `Int`. -/
def addManualLabel (now : Nat) (code description : List Char) (quantity : Int) :
    Option LabelData :=
  if jsTrim code = [] ∨ jsTrim description = [] then none
  else if quantity < 0 then none
  else some { id := "label-manual-".data ++ (toString now).data,
              code := jsTrim code, description := jsTrim description,
              quantity := quantity }

/-- `handleQuantityChange` (src/App.tsx:150-155): replace the quantity of the
record with the given id. -/
def handleQuantityChange (labels : List LabelData) (id : List Char) (qty : Int) :
    List LabelData :=
  labels.map (fun l => if l.id = id then { l with quantity := qty } else l)

/-- The quantity-edit `onChange` of `LabelCardEditable` (lines 60-68): the
typed value is applied only when it parses to an integer greater than zero. -/
def cardQuantityInput (labels : List LabelData) (id : List Char) (raw : List Char) :
    List LabelData :=
  match jsParseInt raw with
  | some v => if v > 0 then handleQuantityChange labels id v else labels
  | none => labels

/-- `seg` occurs contiguously inside `l`. -/
def containsSeg (seg l : List Char) : Prop :=
  ∃ s t, s ++ seg ++ t = l

theorem containsSeg_self (l : List Char) : containsSeg l l :=
  ⟨[], [], by simp⟩

theorem containsSeg_appL {seg l : List Char} (x : List Char)
    (h : containsSeg seg l) : containsSeg seg (x ++ l) := by
  obtain ⟨s, t, rfl⟩ := h
  exact ⟨x ++ s, t, by simp⟩

theorem containsSeg_appR {seg l : List Char} (y : List Char)
    (h : containsSeg seg l) : containsSeg seg (l ++ y) := by
  obtain ⟨s, t, rfl⟩ := h
  exact ⟨s, t ++ y, by simp⟩

theorem qtyLine_in_main (code l1 l2 : List Char) (q : Int) :
    containsSeg (qtyLine q) (buildMainBlock code l1 l2 q) := by
  unfold buildMainBlock
  exact containsSeg_appR _ (containsSeg_appL _ (containsSeg_self _))

theorem qtyLine_in_residual (code l1 l2 : List Char) :
    containsSeg (qtyLine 1) (buildResidualBlock code l1 l2) := by
  unfold buildResidualBlock
  exact containsSeg_appR _ (containsSeg_appL _ (containsSeg_self _))

theorem code_in_main (code l1 l2 : List Char) (q : Int) :
    containsSeg code (buildMainBlock code l1 l2 q) := by
  unfold buildMainBlock
  repeat'
    first
    | exact containsSeg_appL _ (containsSeg_self _)
    | apply containsSeg_appR

theorem code_in_residual (code l1 l2 : List Char) :
    containsSeg code (buildResidualBlock code l1 l2) := by
  unfold buildResidualBlock
  repeat'
    first
    | exact containsSeg_appL _ (containsSeg_self _)
    | apply containsSeg_appR

theorem lines_in_main (code l1 l2 : List Char) (q : Int) :
    containsSeg l1 (buildMainBlock code l1 l2 q) ∧
    containsSeg l2 (buildMainBlock code l1 l2 q) := by
  unfold buildMainBlock
  constructor <;>
    repeat'
      first
      | exact containsSeg_appL _ (containsSeg_self _)
      | apply containsSeg_appR

theorem lines_in_residual (code l1 l2 : List Char) :
    containsSeg l1 (buildResidualBlock code l1 l2) ∧
    containsSeg l2 (buildResidualBlock code l1 l2) := by
  unfold buildResidualBlock
  constructor <;>
    repeat'
      first
      | exact containsSeg_appL _ (containsSeg_self _)
      | apply containsSeg_appR

/-- C1: under the split quantity-emission policy, a record with
`quantity > 1` yields exactly a main (triple-layout) block whose quantity
directive requests `quantity - 1` copies followed by a residual
(single-barcode, single-text-field-pair) block whose directive requests 1
copy, both carrying the record's code and the two wrapped description lines;
a record with `quantity = 1` yields exactly one main block requesting 1 copy.
In particular `quantity = 5` gives two blocks requesting 4 and 1 copies. -/
theorem C1_split_policy (r : LabelData) :
    (1 < r.quantity →
      labelSplitBlocks r =
        [buildMainBlock r.code (splitDescription r.description 25).1
           (splitDescription r.description 25).2 (r.quantity - 1),
         buildResidualBlock r.code (splitDescription r.description 25).1
           (splitDescription r.description 25).2] ∧
      containsSeg (qtyLine (r.quantity - 1))
        (buildMainBlock r.code (splitDescription r.description 25).1
          (splitDescription r.description 25).2 (r.quantity - 1)) ∧
      containsSeg (qtyLine 1)
        (buildResidualBlock r.code (splitDescription r.description 25).1
          (splitDescription r.description 25).2) ∧
      containsSeg r.code
        (buildMainBlock r.code (splitDescription r.description 25).1
          (splitDescription r.description 25).2 (r.quantity - 1)) ∧
      containsSeg r.code
        (buildResidualBlock r.code (splitDescription r.description 25).1
          (splitDescription r.description 25).2) ∧
      containsSeg (splitDescription r.description 25).1
        (buildMainBlock r.code (splitDescription r.description 25).1
          (splitDescription r.description 25).2 (r.quantity - 1)) ∧
      containsSeg (splitDescription r.description 25).2
        (buildMainBlock r.code (splitDescription r.description 25).1
          (splitDescription r.description 25).2 (r.quantity - 1)) ∧
      containsSeg (splitDescription r.description 25).1
        (buildResidualBlock r.code (splitDescription r.description 25).1
          (splitDescription r.description 25).2) ∧
      containsSeg (splitDescription r.description 25).2
        (buildResidualBlock r.code (splitDescription r.description 25).1
          (splitDescription r.description 25).2)) ∧
    (r.quantity = 1 →
      labelSplitBlocks r =
        [buildMainBlock r.code (splitDescription r.description 25).1
           (splitDescription r.description 25).2 1] ∧
      containsSeg (qtyLine 1)
        (buildMainBlock r.code (splitDescription r.description 25).1
          (splitDescription r.description 25).2 1)) := by
  constructor
  · intro h
    refine ⟨?_, qtyLine_in_main _ _ _ _, qtyLine_in_residual _ _ _,
      code_in_main _ _ _ _, code_in_residual _ _ _,
      (lines_in_main _ _ _ _).1, (lines_in_main _ _ _ _).2,
      (lines_in_residual _ _ _).1, (lines_in_residual _ _ _).2⟩
    simp only [labelSplitBlocks, if_pos h]
  · intro h
    refine ⟨?_, qtyLine_in_main _ _ _ _⟩
    simp only [labelSplitBlocks, h]
    norm_num

/-- Concrete instance of C1 at quantity 5: two blocks, requesting 4 and 1. -/
def c1Rec : LabelData :=
  { id := "w".data, code := "12345".data,
    description := "Sacos de alimento balanceado premium para bovinos".data,
    quantity := 5 }

theorem C1_split_policy_witness :
    (1 : Int) < c1Rec.quantity ∧
    labelSplitBlocks c1Rec =
      [buildMainBlock c1Rec.code (splitDescription c1Rec.description 25).1
         (splitDescription c1Rec.description 25).2 (c1Rec.quantity - 1),
       buildResidualBlock c1Rec.code (splitDescription c1Rec.description 25).1
         (splitDescription c1Rec.description 25).2] ∧
    c1Rec.quantity - 1 = 4 :=
  ⟨by decide, ((C1_split_policy c1Rec).1 (by decide)).1, by decide⟩

/-- A quantity-zero record, used to exercise the encoders. -/
def c2Rec : LabelData :=
  { id := "x".data, code := "A".data, description := "B".data, quantity := 0 }

/-- C2 counterexample: the claim says a record with `quantity = 0` produces
zero blocks under both policies, but the unfiltered triple-layout exact
encoder (second src/App.tsx variant, lines 639-656) emits one block for it. -/
theorem C2_counterexample :
    c2Rec.quantity = 0 ∧ tripleExactBlocks [c2Rec] ≠ [] := by decide

/-- C2 (amended): a record with `quantity = 0` produces zero blocks under the
split policy and under the filtered exact encoder of the first src/App.tsx
variant; the unfiltered triple-layout exact encoder of the second variant
instead emits exactly one block whose quantity directive requests 0 copies. -/
theorem C2_zero_quantity (r : LabelData) (h : r.quantity = 0) :
    labelSplitBlocks r = [] ∧
    exactFilteredBlocks [r] = [] ∧
    tripleExactBlocks [r] =
      [tripleExactBlock r.code (splitDescription r.description 25).1
        (splitDescription r.description 25).2 0] := by
  refine ⟨?_, ?_, ?_⟩
  · simp [labelSplitBlocks, h]
  · simp [exactFilteredBlocks, h]
  · simp [tripleExactBlocks, h]

theorem C2_zero_quantity_witness :
    c2Rec.quantity = 0 ∧
    labelSplitBlocks c2Rec = [] ∧
    exactFilteredBlocks [c2Rec] = [] ∧
    tripleExactBlocks [c2Rec] =
      [tripleExactBlock c2Rec.code (splitDescription c2Rec.description 25).1
        (splitDescription c2Rec.description 25).2 0] :=
  ⟨by decide, C2_zero_quantity c2Rec (by decide)⟩

theorem jsIndexOf_neg_one_iff (l : List (List Char)) (x : List Char) :
    jsIndexOf l x = -1 ↔ x ∉ l := by
  unfold jsIndexOf
  cases h : l.findIdx? (fun y => y = x) with
  | none =>
    rw [List.findIdx?_eq_none_iff] at h
    simp only [decide_eq_false_iff_not] at h
    simpa using fun hx => h x hx rfl
  | some i =>
    simp only []
    constructor
    · intro hi
      omega
    · intro hx
      exfalso
      have hnone : l.findIdx? (fun y => y = x) = none := by
        rw [List.findIdx?_eq_none_iff]
        intro y hy
        simp only [decide_eq_false_iff_not]
        intro he
        exact hx (he ▸ hy)
      rw [h] at hnone
      simp at hnone

theorem nonEmptyRows_of_trim_nil {input : List Char} (h : jsTrim input = []) :
    nonEmptyRows input = [] := by
  unfold nonEmptyRows
  rw [h]
  decide

theorem parseCore_insufficient (rowFn : Nat → Nat → Nat → Nat → Nat → List Char → Option LabelData)
    (input : List Char) (now : Nat) (h1 : jsTrim input ≠ [])
    (h2 : (nonEmptyRows input).length < 2) :
    parseCore rowFn input now = .error .insufficientRows := by
  have hne : input ≠ [] := by
    intro hi
    exact h1 (by rw [hi]; rfl)
  simp [parseCore, hne, h1, h2]

theorem parseCore_noop (rowFn : Nat → Nat → Nat → Nat → Nat → List Char → Option LabelData)
    (input : List Char) (now : Nat) (h : jsTrim input = []) :
    parseCore rowFn input now = .noop := by
  by_cases hne : input = []
  · simp [parseCore, hne]
  · simp [parseCore, hne, h]

theorem trim_ne_nil_of_two_rows {input : List Char}
    (h2 : 2 ≤ (nonEmptyRows input).length) : jsTrim input ≠ [] := by
  intro h
  rw [nonEmptyRows_of_trim_nil h] at h2
  simp at h2

theorem parseCore_missing_code (rowFn : Nat → Nat → Nat → Nat → Nat → List Char → Option LabelData)
    (input : List Char) (now : Nat) (h2 : 2 ≤ (nonEmptyRows input).length)
    (hc : CODE_HEADER ∉ headerCells input) :
    parseCore rowFn input now = .error (.missingColumn CODE_HEADER) := by
  have h1 : jsTrim input ≠ [] := trim_ne_nil_of_two_rows h2
  have hne : input ≠ [] := fun hi => h1 (by rw [hi]; rfl)
  have h2' : ¬ ((nonEmptyRows input).length < 2) := by omega
  have hidx : jsIndexOf (headerCells input) CODE_HEADER = -1 :=
    (jsIndexOf_neg_one_iff _ _).2 hc
  simp [parseCore, hne, h1, h2', hidx]

theorem parseCore_missing_desc (rowFn : Nat → Nat → Nat → Nat → Nat → List Char → Option LabelData)
    (input : List Char) (now : Nat) (h2 : 2 ≤ (nonEmptyRows input).length)
    (hc : CODE_HEADER ∈ headerCells input) (hd : DESC_HEADER ∉ headerCells input) :
    parseCore rowFn input now = .error (.missingColumn DESC_HEADER) := by
  have h1 : jsTrim input ≠ [] := trim_ne_nil_of_two_rows h2
  have hne : input ≠ [] := fun hi => h1 (by rw [hi]; rfl)
  have h2' : ¬ ((nonEmptyRows input).length < 2) := by omega
  have hcidx : ¬ (jsIndexOf (headerCells input) CODE_HEADER = -1) :=
    fun h => ((jsIndexOf_neg_one_iff _ _).1 h) hc
  have hdidx : jsIndexOf (headerCells input) DESC_HEADER = -1 :=
    (jsIndexOf_neg_one_iff _ _).2 hd
  simp [parseCore, hne, h1, h2', hcidx, hdidx]

theorem parseCore_missing_qty (rowFn : Nat → Nat → Nat → Nat → Nat → List Char → Option LabelData)
    (input : List Char) (now : Nat) (h2 : 2 ≤ (nonEmptyRows input).length)
    (hc : CODE_HEADER ∈ headerCells input) (hd : DESC_HEADER ∈ headerCells input)
    (hq : QTY_HEADER ∉ headerCells input) :
    parseCore rowFn input now = .error (.missingColumn QTY_HEADER) := by
  have h1 : jsTrim input ≠ [] := trim_ne_nil_of_two_rows h2
  have hne : input ≠ [] := fun hi => h1 (by rw [hi]; rfl)
  have h2' : ¬ ((nonEmptyRows input).length < 2) := by omega
  have hcidx : ¬ (jsIndexOf (headerCells input) CODE_HEADER = -1) :=
    fun h => ((jsIndexOf_neg_one_iff _ _).1 h) hc
  have hdidx : ¬ (jsIndexOf (headerCells input) DESC_HEADER = -1) :=
    fun h => ((jsIndexOf_neg_one_iff _ _).1 h) hd
  have hqidx : jsIndexOf (headerCells input) QTY_HEADER = -1 :=
    (jsIndexOf_neg_one_iff _ _).2 hq
  simp [parseCore, hne, h1, h2', hcidx, hdidx, hqidx]

/-- The §8 end-to-end input with the quantity header renamed. -/
def c6Input : List Char :=
  "Número de artículo\tDescripción del artículo\tCantidad\n12345\tSacos de alimento balanceado premium para bovinos\t3".data

/-- C6: with at least two non-empty rows, the parser reports `MissingColumn`
for the first absent required header in the fixed order code, description,
quantity (in both parser variants); in particular the §8 input with the
quantity header renamed fails with `MissingColumn("Cantidad de Etiquetas")`. -/
theorem C6_missing_column_order :
    (∀ input now, 2 ≤ (nonEmptyRows input).length →
      CODE_HEADER ∉ headerCells input →
      parseLenient input now = .error (.missingColumn CODE_HEADER) ∧
      parseStrict input now = .error (.missingColumn CODE_HEADER)) ∧
    (∀ input now, 2 ≤ (nonEmptyRows input).length →
      CODE_HEADER ∈ headerCells input → DESC_HEADER ∉ headerCells input →
      parseLenient input now = .error (.missingColumn DESC_HEADER) ∧
      parseStrict input now = .error (.missingColumn DESC_HEADER)) ∧
    (∀ input now, 2 ≤ (nonEmptyRows input).length →
      CODE_HEADER ∈ headerCells input → DESC_HEADER ∈ headerCells input →
      QTY_HEADER ∉ headerCells input →
      parseLenient input now = .error (.missingColumn QTY_HEADER) ∧
      parseStrict input now = .error (.missingColumn QTY_HEADER)) ∧
    parseStrict c6Input 0 = .error (.missingColumn QTY_HEADER) := by
  refine ⟨fun input now h2 hc => ⟨?_, ?_⟩, fun input now h2 hc hd => ⟨?_, ?_⟩,
    fun input now h2 hc hd hq => ⟨?_, ?_⟩, by decide⟩
  · exact parseCore_missing_code lenientRow input now h2 hc
  · exact parseCore_missing_code strictRow input now h2 hc
  · exact parseCore_missing_desc lenientRow input now h2 hc hd
  · exact parseCore_missing_desc strictRow input now h2 hc hd
  · exact parseCore_missing_qty lenientRow input now h2 hc hd hq
  · exact parseCore_missing_qty strictRow input now h2 hc hd hq

/-- Inputs with the code header missing, and with the description header
missing, used to witness the fixed check order. -/
def c6InputNoCode : List Char :=
  "X\tDescripción del artículo\tCantidad de Etiquetas\n1\tY\t2".data

def c6InputNoDesc : List Char :=
  "Número de artículo\tX\tCantidad de Etiquetas\n1\tY\t2".data

theorem C6_missing_column_order_witness :
    parseLenient c6InputNoCode 0 = .error (.missingColumn CODE_HEADER) ∧
    parseLenient c6InputNoDesc 0 = .error (.missingColumn DESC_HEADER) ∧
    parseLenient c6Input 0 = .error (.missingColumn QTY_HEADER) :=
  ⟨(C6_missing_column_order.1 c6InputNoCode 0 (by decide) (by decide)).1,
   (C6_missing_column_order.2.1 c6InputNoDesc 0 (by decide) (by decide) (by decide)).1,
   (C6_missing_column_order.2.2.1 c6Input 0 (by decide) (by decide) (by decide) (by decide)).1⟩

/-- C7 counterexample: whitespace-only input has 0 non-empty lines, yet the
code returns silently from the early `if (!text) return;` guard instead of
reporting `InsufficientRows`, contradicting the claim. -/
theorem C7_counterexample :
    (nonEmptyRows "   ".data).length < 2 ∧
    parseLenient "   ".data 0 ≠ .error .insufficientRows ∧
    parseLenient "   ".data 0 = .noop := by decide

/-- C7 (amended): when the trimmed input is non-empty and fewer than 2
non-empty lines remain, both parser variants fail with `InsufficientRows`;
empty or whitespace-only input instead returns silently with no error. -/
theorem C7_insufficient_rows :
    (∀ input now, jsTrim input ≠ [] → (nonEmptyRows input).length < 2 →
      parseLenient input now = .error .insufficientRows ∧
      parseStrict input now = .error .insufficientRows) ∧
    (∀ input now, jsTrim input = [] →
      parseLenient input now = .noop ∧ parseStrict input now = .noop) :=
  ⟨fun input now h1 h2 =>
    ⟨parseCore_insufficient lenientRow input now h1 h2,
     parseCore_insufficient strictRow input now h1 h2⟩,
   fun input now h =>
    ⟨parseCore_noop lenientRow input now h, parseCore_noop strictRow input now h⟩⟩

theorem C7_insufficient_rows_witness :
    parseLenient "solo una linea".data 0 = .error .insufficientRows ∧
    parseLenient "".data 0 = .noop :=
  ⟨(C7_insufficient_rows.1 "solo una linea".data 0 (by decide) (by decide)).1,
   (C7_insufficient_rows.2 "".data 0 (by decide)).1⟩

/-- The observable content of a record: everything except the generated id. -/
def recordView (l : LabelData) : List Char × List Char × Int :=
  (l.code, l.description, l.quantity)

theorem lenientRow_view (n n' a b c i : Nat) (r : List Char) :
    (lenientRow n a b c i r).map recordView = (lenientRow n' a b c i r).map recordView := by
  unfold lenientRow
  dsimp only []
  split
  · split
    · simp [recordView]
    · rfl
  · rfl

theorem parseCore_view (rowFn : Nat → Nat → Nat → Nat → Nat → List Char → Option LabelData)
    (hview : ∀ n n' a b c i r,
      (rowFn n a b c i r).map recordView = (rowFn n' a b c i r).map recordView)
    (input : List Char) (n1 n2 : Nat) :
    (parsedRecords (parseCore rowFn input n1)).map recordView
      = (parsedRecords (parseCore rowFn input n2)).map recordView := by
  by_cases hA : input = []
  · simp [parseCore, hA]
  by_cases hB : jsTrim input = []
  · simp [parseCore, hA, hB]
  by_cases hC : (nonEmptyRows input).length < 2
  · simp [parseCore, hA, hB, hC]
  by_cases hD : jsIndexOf (headerCells input) CODE_HEADER = -1
  · simp [parseCore, hA, hB, hC, hD]
  by_cases hE : jsIndexOf (headerCells input) DESC_HEADER = -1
  · simp [parseCore, hA, hB, hC, hD, hE]
  by_cases hF : jsIndexOf (headerCells input) QTY_HEADER = -1
  · simp [parseCore, hA, hB, hC, hD, hE, hF]
  have hmap :
      (((nonEmptyRows input).drop 1).enum.filterMap
        (fun p => rowFn n1 (jsIndexOf (headerCells input) CODE_HEADER).toNat
          (jsIndexOf (headerCells input) DESC_HEADER).toNat
          (jsIndexOf (headerCells input) QTY_HEADER).toNat p.1 p.2)).map recordView
      = (((nonEmptyRows input).drop 1).enum.filterMap
        (fun p => rowFn n2 (jsIndexOf (headerCells input) CODE_HEADER).toNat
          (jsIndexOf (headerCells input) DESC_HEADER).toNat
          (jsIndexOf (headerCells input) QTY_HEADER).toNat p.1 p.2)).map recordView := by
    rw [List.map_filterMap, List.map_filterMap]
    exact List.filterMap_congr (fun p _ => hview n1 n2 _ _ _ p.1 p.2)
  simp only [parseCore, hA, hB, hC, hD, hE, hF, if_false]
  set L1 := ((nonEmptyRows input).drop 1).enum.filterMap
    (fun p => rowFn n1 (jsIndexOf (headerCells input) CODE_HEADER).toNat
      (jsIndexOf (headerCells input) DESC_HEADER).toNat
      (jsIndexOf (headerCells input) QTY_HEADER).toNat p.1 p.2) with hL1
  set L2 := ((nonEmptyRows input).drop 1).enum.filterMap
    (fun p => rowFn n2 (jsIndexOf (headerCells input) CODE_HEADER).toNat
      (jsIndexOf (headerCells input) DESC_HEADER).toNat
      (jsIndexOf (headerCells input) QTY_HEADER).toNat p.1 p.2) with hL2
  by_cases h1 : L1 = []
  · have h2 : L2 = [] := by
      rw [h1] at hmap
      simpa using (List.map_eq_nil_iff.1 hmap.symm)
    simp [h1, h2]
  · have h2 : L2 ≠ [] := by
      intro h
      rw [h] at hmap
      exact h1 (List.map_eq_nil_iff.1 hmap)
    simp [h1, h2, parsedRecords, hmap]

/-- C9: parsing is a deterministic function of the input text: two
`handleProcessData` calls on the same text (at different `Date.now()` clock
values) produce the same records positionally (same code, description and
quantity), so parsing twice and concatenating equals one parse duplicated. -/
theorem C9_parse_deterministic (input : List Char) (n1 n2 : Nat) :
    (parsedRecords (parseLenient input n1)).map recordView
      = (parsedRecords (parseLenient input n2)).map recordView ∧
    (parsedRecords (parseLenient input n1)
        ++ parsedRecords (parseLenient input n2)).map recordView
      = (parsedRecords (parseLenient input n1)).map recordView
        ++ (parsedRecords (parseLenient input n1)).map recordView := by
  unfold parseLenient
  have h := parseCore_view lenientRow lenientRow_view input n1 n2
  exact ⟨h, by rw [List.map_append, h]⟩

/-- All whitespace-trimmed tab-fields of the non-empty input lines. -/
def allFields (input : List Char) : List (List Char) :=
  ((nonEmptyRows input).map (fun r => (splitOnChar '\t' r).map jsTrim)).flatten

theorem mem_parseCore {rowFn : Nat → Nat → Nat → Nat → Nat → List Char → Option LabelData}
    {input : List Char} {now : Nat} {rec : LabelData}
    (h : rec ∈ parsedRecords (parseCore rowFn input now)) :
    ∃ a b c i r, r ∈ nonEmptyRows input ∧ rowFn now a b c i r = some rec := by
  unfold parseCore at h
  dsimp only [] at h
  split at h
  · simp [parsedRecords] at h
  split at h
  · simp [parsedRecords] at h
  split at h
  · simp [parsedRecords] at h
  split at h
  · simp [parsedRecords] at h
  split at h
  · simp [parsedRecords] at h
  split at h
  · simp [parsedRecords] at h
  split at h
  · simp only [parsedRecords] at h
    rw [List.mem_filterMap] at h
    obtain ⟨⟨i, r⟩, hp, hsome⟩ := h
    have hmem := List.mem_enum hp
    refine ⟨_, _, _, i, r, ?_, hsome⟩
    have : r ∈ (nonEmptyRows input).drop 1 := by
      rw [hmem.2]
      exact List.getElem_mem hmem.1
    exact List.mem_of_mem_drop this
  · simp [parsedRecords] at h

theorem lenientRow_quantity {now a b c i : Nat} {r : List Char} {rec : LabelData}
    (h : lenientRow now a b c i r = some rec) :
    rec.quantity = 0 ∨
      ∃ s, s ∈ (splitOnChar '\t' r).map jsTrim ∧ jsParseInt s = some rec.quantity := by
  unfold lenientRow at h
  dsimp only [] at h
  split at h
  case isTrue hlen =>
    split at h
    case isTrue hcd =>
      rw [Option.some_inj] at h
      subst h
      dsimp only []
      split
      case isTrue hq =>
        obtain ⟨v, hv⟩ := Option.isSome_iff_exists.1 hq.2
        refine Or.inr ⟨((splitOnChar '\t' r).map jsTrim).getD c [], ?_, ?_⟩
        · have hc : c < ((splitOnChar '\t' r).map jsTrim).length := by
            have := hlen
            omega
          rw [List.getD_eq_getElem _ _ hc]
          exact List.getElem_mem hc
        · rw [hv]
          simp [hv]
      case isFalse => exact Or.inl rfl
    case isFalse => exact absurd h (by simp)
  case isFalse => exact absurd h (by simp)

theorem strictRow_quantity {now a b c i : Nat} {r : List Char} {rec : LabelData}
    (h : strictRow now a b c i r = some rec) : 1 ≤ rec.quantity := by
  unfold strictRow at h
  dsimp only [] at h
  split at h
  case isTrue =>
    split at h
    case isTrue =>
      split at h
      case h_1 v hv =>
        split at h
        case isTrue hvpos =>
          rw [Option.some_inj] at h
          subst h
          exact hvpos
        case isFalse => exact absurd h (by simp)
      case h_2 => exact absurd h (by simp)
    case isFalse => exact absurd h (by simp)
  case isFalse => exact absurd h (by simp)

theorem addManualLabel_quantity {now : Nat} {code desc : List Char} {q : Int}
    {rec : LabelData} (h : addManualLabel now code desc q = some rec) :
    0 ≤ rec.quantity := by
  unfold addManualLabel at h
  split at h
  · exact absurd h (by simp)
  split at h
  case isTrue => exact absurd h (by simp)
  case isFalse hq =>
    rw [Option.some_inj] at h
    subst h
    dsimp only []
    omega

theorem cardQuantityInput_nonneg (labels : List LabelData) (id raw : List Char)
    (h : ∀ l ∈ labels, 0 ≤ l.quantity) :
    ∀ l ∈ cardQuantityInput labels id raw, 0 ≤ l.quantity := by
  intro l hl
  unfold cardQuantityInput at hl
  split at hl
  case h_1 v hv =>
    split at hl
    case isTrue hvpos =>
      unfold handleQuantityChange at hl
      rw [List.mem_map] at hl
      obtain ⟨l0, hl0, rfl⟩ := hl
      split
      · dsimp only []
        omega
      · exact h l0 hl0
    case isFalse => exact h l hl
  case h_2 => exact h l hl

/-- Input whose only data row carries the quantity field `-3`. -/
def c3Input : List Char :=
  "Número de artículo\tDescripción del artículo\tCantidad de Etiquetas\nA\tB\t-3".data

/-- C3 counterexample: under the lenient quantity policy (first src/App.tsx
variant) a quantity field that parses to a negative integer is stored as-is,
so a parsed record can violate `quantity ≥ 0`. -/
theorem C3_counterexample :
    parseLenient c3Input 0 =
      .ok [{ id := "label-0-0".data, code := "A".data, description := "B".data,
             quantity := -3 }] ∧
    ∃ rec ∈ parsedRecords (parseLenient c3Input 0), rec.quantity < 0 := by
  constructor
  · decide
  · refine ⟨{ id := "label-0-0".data, code := "A".data, description := "B".data,
              quantity := -3 }, ?_, by decide⟩
    decide

/-- C3 (amended): every record produced by strict parsing has
`quantity ≥ 1`; manual-add records have `quantity ≥ 0`; the quantity-edit
operation preserves `quantity ≥ 0` (it only ever writes positive values);
and lenient parsing guarantees `quantity ≥ 0` provided no trimmed tab-field
of the input parses to a negative integer — otherwise the negative parsed
value is stored verbatim. -/
theorem C3_quantity_invariant :
    (∀ input now rec, rec ∈ parsedRecords (parseStrict input now) →
      1 ≤ rec.quantity) ∧
    (∀ now code desc q rec, addManualLabel now code desc q = some rec →
      0 ≤ rec.quantity) ∧
    (∀ labels id raw, (∀ l ∈ labels, 0 ≤ l.quantity) →
      ∀ l ∈ cardQuantityInput labels id raw, 0 ≤ l.quantity) ∧
    (∀ input now, (∀ s ∈ allFields input, ∀ v, jsParseInt s = some v → 0 ≤ v) →
      ∀ rec ∈ parsedRecords (parseLenient input now), 0 ≤ rec.quantity) := by
  refine ⟨?_, ?_, ?_, ?_⟩
  · intro input now rec hmem
    obtain ⟨a, b, c, i, r, _, hsome⟩ := mem_parseCore hmem
    exact strictRow_quantity hsome
  · intro now code desc q rec h
    exact addManualLabel_quantity h
  · intro labels id raw h
    exact cardQuantityInput_nonneg labels id raw h
  · intro input now hfields rec hmem
    obtain ⟨a, b, c, i, r, hr, hsome⟩ := mem_parseCore hmem
    rcases lenientRow_quantity hsome with h0 | ⟨s, hs, hv⟩
    · omega
    · refine hfields s ?_ rec.quantity hv
      exact List.mem_flatten.2 ⟨_, List.mem_map_of_mem _ hr, hs⟩

theorem C3_quantity_invariant_witness :
    (∀ rec ∈ parsedRecords
        (parseStrict "Número de artículo\tDescripción del artículo\tCantidad de Etiquetas\nA\tB\t2".data 0),
      1 ≤ rec.quantity) ∧
    (∀ rec, addManualLabel 0 "A".data "B".data 3 = some rec → 0 ≤ rec.quantity) ∧
    (∀ l ∈ cardQuantityInput
        [{ id := "i".data, code := "A".data, description := "B".data, quantity := 2 }]
        "i".data "7".data, 0 ≤ l.quantity) ∧
    (∀ rec ∈ parsedRecords
        (parseLenient "Número de artículo\tDescripción del artículo\tCantidad de Etiquetas\nA\tB\t2".data 0),
      0 ≤ rec.quantity) :=
  ⟨fun rec hmem => C3_quantity_invariant.1 _ 0 rec hmem,
   fun rec h => C3_quantity_invariant.2.1 0 "A".data "B".data 3 rec h,
   C3_quantity_invariant.2.2.1 _ "i".data "7".data (by decide),
   C3_quantity_invariant.2.2.2 _ 0 (by decide)⟩

theorem mem_sanitize_not_zw {c : Char} {s : List Char}
    (h : c ∈ sanitizeString s) : zeroWidthChar c = false := by
  unfold sanitizeString at h
  split at h
  · simp at h
  · rw [List.mem_filter] at h
    simpa using h.2

theorem lenientRow_description {now a b c i : Nat} {r : List Char} {rec : LabelData}
    (h : lenientRow now a b c i r = some rec) :
    ∃ x, rec.description = sanitizeString x := by
  unfold lenientRow at h
  dsimp only [] at h
  split at h
  · split at h
    · rw [Option.some_inj] at h
      subst h
      exact ⟨_, rfl⟩
    · exact absurd h (by simp)
  · exact absurd h (by simp)

theorem strictRow_description {now a b c i : Nat} {r : List Char} {rec : LabelData}
    (h : strictRow now a b c i r = some rec) :
    ∃ x, rec.description = sanitizeString x := by
  unfold strictRow at h
  dsimp only [] at h
  split at h
  · split at h
    · split at h
      case h_1 =>
        split at h
        · rw [Option.some_inj] at h
          subst h
          exact ⟨_, rfl⟩
        · exact absurd h (by simp)
      case h_2 => exact absurd h (by simp)
    · exact absurd h (by simp)
  · exact absurd h (by simp)

/-- C8: the description stored in any record produced by either parser
variant contains none of the code points U+200B, U+200C, U+200D, U+FEFF:
the field is whitespace-trimmed and the zero-width characters are stripped
by `sanitizeString` before the record is created. -/
theorem C8_description_sanitized (input : List Char) (now : Nat) (rec : LabelData)
    (hmem : rec ∈ parsedRecords (parseLenient input now) ∨
      rec ∈ parsedRecords (parseStrict input now)) :
    ∀ c ∈ rec.description,
      c.toNat ≠ 0x200B ∧ c.toNat ≠ 0x200C ∧ c.toNat ≠ 0x200D ∧ c.toNat ≠ 0xFEFF := by
  intro c hc
  have hdesc : ∃ x, rec.description = sanitizeString x := by
    rcases hmem with hmem | hmem
    · obtain ⟨a, b, c', i, r, _, hsome⟩ := mem_parseCore hmem
      exact lenientRow_description hsome
    · obtain ⟨a, b, c', i, r, _, hsome⟩ := mem_parseCore hmem
      exact strictRow_description hsome
  obtain ⟨x, hx⟩ := hdesc
  rw [hx] at hc
  have hzw : zeroWidthChar c = false := mem_sanitize_not_zw hc
  refine ⟨?_, ?_, ?_, ?_⟩ <;> intro he <;>
    · have ht : zeroWidthChar c = true := by simp [zeroWidthChar, he]
      simp [ht] at hzw

/-- Input whose description field contains a zero-width space. -/
def c8Input : List Char :=
  "Número de artículo\tDescripción del artículo\tCantidad de Etiquetas\nA\tB\u200Bc\t2".data

theorem C8_description_sanitized_witness :
    'B'.toNat ≠ 0x200B ∧ 'B'.toNat ≠ 0x200C ∧ 'B'.toNat ≠ 0x200D ∧
      'B'.toNat ≠ 0xFEFF :=
  C8_description_sanitized c8Input 0
    { id := "label-0-0".data, code := "A".data, description := "Bc".data,
      quantity := 2 }
    (Or.inl (by decide)) 'B' (by decide)

theorem isJsWs_space : isJsWs ' ' = true := by decide

theorem jsTrim_space_cons (l : List Char) : jsTrim (' ' :: l) = jsTrim l := by
  simp [jsTrim, List.dropWhile_cons, isJsWs_space]

theorem spaceIdx_mem {t : List Char} {m i : Nat}
    (h : (spaceIdxsLE t m).getLast? = some i) :
    i < t.length ∧ i ≤ m ∧ t.get? i = some ' ' := by
  have hmem : i ∈ spaceIdxsLE t m := List.mem_of_mem_getLast? h
  unfold spaceIdxsLE at hmem
  rw [List.mem_filter] at hmem
  refine ⟨List.mem_range.1 hmem.1, ?_⟩
  simpa using hmem.2

theorem drop_at_space {t : List Char} {i : Nat} (hi : i < t.length)
    (hsp : t.get? i = some ' ') : t.drop i = ' ' :: t.drop (i + 1) := by
  obtain ⟨h', hg⟩ := List.get?_eq_some.1 hsp
  rw [List.get_eq_getElem] at hg
  rw [List.drop_eq_getElem_cons hi, hg]

/-- Modelled from the spec's words (§4.2): the last space at or before index
`maxLineLength`. -/
def lastSpaceAtOrBefore (t : List Char) (m : Nat) : Option Nat :=
  (spaceIdxsLE t m).getLast?

/-- Modelled from the spec's words (§4.2): trim the description; if it fits,
return it with an empty second line; otherwise split at the last space at or
before the limit when that index is positive, discarding the separating
space and trimming both halves; otherwise split at exactly the limit. -/
def wrapSpec (desc : List Char) (m : Nat) : List Char × List Char :=
  let t := jsTrim desc
  if t.length ≤ m then (t, [])
  else
    match lastSpaceAtOrBefore t m with
    | some i =>
      if 0 < i then (jsTrim (t.take i), jsTrim (t.drop (i + 1)))
      else (jsTrim (t.take m), jsTrim (t.drop m))
    | none => (jsTrim (t.take m), jsTrim (t.drop m))

/-- C4: `splitDescription` at the default width 25 behaves exactly as the
spec describes the wrapper: trim; return `(trimmed, "")` when it fits;
otherwise split at the last space at or before index 25 when that index is
positive (discarding the space, trimming both halves), and split mid-word at
exactly index 25 when no such space exists or the only candidate is at
position 0. -/
theorem C4_wrap_follows_spec (desc : List Char) :
    splitDescription desc 25 = wrapSpec desc 25 := by
  unfold splitDescription wrapSpec jsLastIndexOfSpace lastSpaceAtOrBefore
  dsimp only []
  by_cases hle : (jsTrim desc).length ≤ 25
  · simp [hle]
  · simp only [hle, if_false]
    cases hL : (spaceIdxsLE (jsTrim desc) 25).getLast? with
    | none => norm_num
    | some i =>
      obtain ⟨hlt, hle25, hsp⟩ := spaceIdx_mem hL
      rcases Nat.eq_zero_or_pos i with rfl | hpos
      · norm_num
      · have hgt : ¬ ((i : Int) ≤ 0) := by omega
        simp only [hgt, if_false, Int.toNat_natCast, hpos, if_true]
        rw [drop_at_space hlt hsp, jsTrim_space_cons]

theorem dropWhile_length_le (p : Char → Bool) (l : List Char) :
    (l.dropWhile p).length ≤ l.length := by
  induction l with
  | nil => simp
  | cons a l ih =>
    by_cases h : p a <;> simp [List.dropWhile_cons, h]
    omega

theorem jsTrim_length_le (l : List Char) : (jsTrim l).length ≤ l.length := by
  unfold jsTrim
  calc ((l.dropWhile isJsWs).reverse.dropWhile isJsWs).reverse.length
      = ((l.dropWhile isJsWs).reverse.dropWhile isJsWs).length := by
        rw [List.length_reverse]
    _ ≤ (l.dropWhile isJsWs).reverse.length := dropWhile_length_le _ _
    _ = (l.dropWhile isJsWs).length := by rw [List.length_reverse]
    _ ≤ l.length := dropWhile_length_le _ _

theorem trim_take_length {t : List Char} {p m : Nat} (hpm : p ≤ m) :
    (jsTrim (t.take p)).length ≤ m := by
  refine le_trans (le_trans (jsTrim_length_le _) ?_) hpm
  rw [List.length_take]
  omega

/-- The first wrapped line never exceeds the width, for every width. -/
theorem line1_length_le (desc : List Char) (m : Nat) :
    (splitDescription desc m).1.length ≤ m := by
  unfold splitDescription jsLastIndexOfSpace
  dsimp only []
  by_cases hle : (jsTrim desc).length ≤ m
  · simp only [hle, if_true]
  · simp only [hle, if_false]
    cases hL : (spaceIdxsLE (jsTrim desc) m).getLast? with
    | none =>
      norm_num
      exact trim_take_length le_rfl
    | some i =>
      obtain ⟨hlt, hlem, hsp⟩ := spaceIdx_mem hL
      by_cases hi0 : (i : Int) ≤ 0
      · simp only [hi0, if_true]
        exact trim_take_length le_rfl
      · simp only [hi0, if_false, Int.toNat_natCast]
        exact trim_take_length hlem

/-- C10: the first line returned by the wrapper has length at most
`maxLineLength` unconditionally — also in the mid-word and
space-at-the-limit cases — for every width `≥ 1`. -/
theorem C10_line1_bound (desc : List Char) (m : Nat) (_hm : 1 ≤ m) :
    (splitDescription desc m).1.length ≤ m :=
  line1_length_le desc m

theorem C10_line1_bound_witness :
    1 ≤ 25 ∧
    (splitDescription "abcdefghijklmnopqrstuvwxyz0123".data 25).1.length ≤ 25 :=
  ⟨by decide, C10_line1_bound "abcdefghijklmnopqrstuvwxyz0123".data 25 (by decide)⟩

theorem dropWhile_head?_false {p : Char → Bool} {l : List Char} {c : Char}
    (h : (l.dropWhile p).head? = some c) : p c = false := by
  induction l with
  | nil => simp at h
  | cons a l ih =>
    by_cases hpa : p a
    · rw [List.dropWhile_cons, if_pos hpa] at h
      exact ih h
    · rw [List.dropWhile_cons, if_neg hpa] at h
      simp only [List.head?_cons, Option.some_inj] at h
      subst h
      simpa using hpa

theorem exists_getLast? {l : List Char} (h : l ≠ []) : ∃ c, l.getLast? = some c := by
  cases hl : l.getLast? with
  | none => exact absurd (List.getLast?_eq_none_iff.1 hl) h
  | some c => exact ⟨c, rfl⟩

theorem trimRight_decomp {l : List Char} (h : l.dropWhile isJsWs = l) :
    ∃ w, (∀ c ∈ w, isJsWs c = true) ∧ l = jsTrim l ++ w := by
  refine ⟨(l.reverse.takeWhile isJsWs).reverse, ?_, ?_⟩
  · intro c hc
    rw [List.mem_reverse] at hc
    exact List.mem_takeWhile_imp hc
  · unfold jsTrim
    rw [h]
    calc l = l.reverse.reverse := (List.reverse_reverse l).symm
      _ = (l.reverse.takeWhile isJsWs ++ l.reverse.dropWhile isJsWs).reverse := by
          rw [List.takeWhile_append_dropWhile]
      _ = (l.reverse.dropWhile isJsWs).reverse ++ (l.reverse.takeWhile isJsWs).reverse := by
          rw [List.reverse_append]

theorem trimLeft_decomp {l : List Char} {c : Char}
    (hlast : l.getLast? = some c) (hc : isJsWs c = false) :
    ∃ w, (∀ x ∈ w, isJsWs x = true) ∧ l = w ++ jsTrim l := by
  have hdec : l = l.takeWhile isJsWs ++ l.dropWhile isJsWs :=
    (List.takeWhile_append_dropWhile _ _).symm
  have hdne : l.dropWhile isJsWs ≠ [] := by
    intro h0
    rw [List.dropWhile_eq_nil_iff] at h0
    have hcl : c ∈ l := List.mem_of_mem_getLast? hlast
    rw [h0 c hcl] at hc
    cases hc
  have hlast_d : (l.dropWhile isJsWs).getLast? = some c := by
    have h2 := List.getLast?_append_of_ne_nil (l.takeWhile isJsWs) hdne
    rw [List.takeWhile_append_dropWhile] at h2
    rw [← h2]
    exact hlast
  have htrim : jsTrim l = l.dropWhile isJsWs := by
    unfold jsTrim
    have hhead : (l.dropWhile isJsWs).reverse.head? = some c := by
      rw [List.head?_reverse]
      exact hlast_d
    have hid : (l.dropWhile isJsWs).reverse.dropWhile isJsWs
        = (l.dropWhile isJsWs).reverse := by
      cases hrev : (l.dropWhile isJsWs).reverse with
      | nil => rfl
      | cons a t =>
        rw [hrev] at hhead
        simp only [List.head?_cons, Option.some_inj] at hhead
        subst hhead
        rw [List.dropWhile_cons, if_neg (by simp [hc])]
    rw [hid, List.reverse_reverse]
  exact ⟨l.takeWhile isJsWs, fun x hx => List.mem_takeWhile_imp hx,
    by rw [htrim]; exact hdec⟩

theorem jsTrim_getLast_not_ws {l : List Char} {c : Char}
    (h : (jsTrim l).getLast? = some c) : isJsWs c = false := by
  unfold jsTrim at h
  rw [List.getLast?_reverse] at h
  exact dropWhile_head?_false h

theorem jsTrim_head_not_ws {l : List Char} {c : Char}
    (h : (jsTrim l).head? = some c) : isJsWs c = false := by
  unfold jsTrim at h
  rw [List.head?_reverse] at h
  have hzne : ((l.dropWhile isJsWs).reverse.dropWhile isJsWs) ≠ [] := by
    intro h0
    rw [h0] at h
    cases h
  have h2 := List.getLast?_append_of_ne_nil
    ((l.dropWhile isJsWs).reverse.takeWhile isJsWs) hzne
  rw [List.takeWhile_append_dropWhile] at h2
  have hylast : (l.dropWhile isJsWs).reverse.getLast? = some c := by
    rw [h2]
    exact h
  rw [List.getLast?_reverse] at hylast
  exact dropWhile_head?_false hylast

theorem head?_take {l : List Char} {n : Nat} (hn : 0 < n) :
    (l.take n).head? = l.head? := by
  cases l with
  | nil => simp
  | cons a t =>
    cases n with
    | zero => omega
    | succ m => simp

theorem splitDescription_long {desc : List Char} {m : Nat}
    (h : ¬ (jsTrim desc).length ≤ m) (hm : 0 < m) :
    ∃ p, 0 < p ∧ p ≤ m ∧
      splitDescription desc m =
        (jsTrim ((jsTrim desc).take p), jsTrim ((jsTrim desc).drop p)) := by
  unfold splitDescription jsLastIndexOfSpace
  dsimp only []
  simp only [h, if_false]
  cases hL : (spaceIdxsLE (jsTrim desc) m).getLast? with
  | none => exact ⟨m, hm, le_rfl, by norm_num⟩
  | some i =>
    obtain ⟨hlt, hlem, hsp⟩ := spaceIdx_mem hL
    by_cases hi0 : (i : Int) ≤ 0
    · exact ⟨m, hm, le_rfl, by simp [hi0]⟩
    · exact ⟨i, by omega, hlem, by simp [hi0, Int.toNat_natCast]⟩

/-- The trimmed description always decomposes as first line, an all-whitespace
seam, then second line. -/
theorem wrap_seam_decomp (desc : List Char) (m : Nat) (hm : 0 < m) :
    ∃ mid, (∀ c ∈ mid, isJsWs c = true) ∧
      jsTrim desc = (splitDescription desc m).1 ++ mid ++ (splitDescription desc m).2 := by
  by_cases hle : (jsTrim desc).length ≤ m
  · refine ⟨[], by simp, ?_⟩
    unfold splitDescription
    dsimp only []
    simp [hle]
  · obtain ⟨p, hp0, hpm, heq⟩ := splitDescription_long hle hm
    rw [heq]
    dsimp only []
    have hplen : p < (jsTrim desc).length := by omega
    have htne : jsTrim desc ≠ [] := by
      intro h0
      rw [h0] at hle
      simp at hle
    obtain ⟨c0, hc0⟩ : ∃ c0, (jsTrim desc).head? = some c0 := by
      cases ht : jsTrim desc with
      | nil => exact absurd ht htne
      | cons a t' => exact ⟨a, rfl⟩
    have hc0ws : isJsWs c0 = false := jsTrim_head_not_ws hc0
    have htake_head : ((jsTrim desc).take p).head? = some c0 := by
      rw [head?_take hp0]
      exact hc0
    have h1 : ((jsTrim desc).take p).dropWhile isJsWs = (jsTrim desc).take p := by
      cases htk : (jsTrim desc).take p with
      | nil => rfl
      | cons a t' =>
        rw [htk] at htake_head
        simp only [List.head?_cons, Option.some_inj] at htake_head
        subst htake_head
        rw [List.dropWhile_cons, if_neg (by simp [hc0ws])]
    obtain ⟨w2, hw2, hd1⟩ := trimRight_decomp h1
    obtain ⟨cn, hcn⟩ := exists_getLast? htne
    have hcnws : isJsWs cn = false := jsTrim_getLast_not_ws hcn
    have hdne : (jsTrim desc).drop p ≠ [] := by
      have hlen := List.length_drop p (jsTrim desc)
      intro h0
      rw [h0] at hlen
      simp at hlen
      omega
    have hlastd : ((jsTrim desc).drop p).getLast? = some cn := by
      have h2 := List.getLast?_append_of_ne_nil ((jsTrim desc).take p) hdne
      rw [List.take_append_drop] at h2
      rw [← h2]
      exact hcn
    obtain ⟨w1, hw1, hd2⟩ := trimLeft_decomp hlastd hcnws
    refine ⟨w2 ++ w1, ?_, ?_⟩
    · intro c hc
      rcases List.mem_append.1 hc with h | h
      · exact hw2 c h
      · exact hw1 c h
    · conv_lhs => rw [← List.take_append_drop p (jsTrim desc)]
      conv_lhs => rw [hd1, hd2]
      simp [List.append_assoc]

/-- A description whose wrap point sits inside a run of two spaces. -/
def c5Desc : List Char := List.replicate 24 'a' ++ "  bbb".data

/-- C5 counterexample: with two consecutive spaces at the wrap point, the
concatenation of the two lines reconstructs the trimmed original neither
directly nor after re-inserting a single separating space — trimming drops
both spaces of the run. -/
theorem C5_counterexample :
    ¬ ((splitDescription c5Desc 25).1 ++ (splitDescription c5Desc 25).2
        = jsTrim c5Desc ∨
       (splitDescription c5Desc 25).1 ++ ' ' :: (splitDescription c5Desc 25).2
        = jsTrim c5Desc) := by decide

/-- C5 (amended): `wrap(desc, 25)` always returns two lines (the second empty
when the text fits) such that the trimmed original is `line1 ++ seam ++ line2`
for some all-whitespace seam — the single discarded separating space in the
common case, but possibly longer runs of whitespace; and `line1.length ≤ 25`
whenever a splitting space was found. -/
theorem C5_wrap_reconstruction (desc : List Char) :
    (∃ mid, (∀ c ∈ mid, isJsWs c = true) ∧
      jsTrim desc = (splitDescription desc 25).1 ++ mid ++ (splitDescription desc 25).2) ∧
    (0 < jsLastIndexOfSpace (jsTrim desc) 25 →
      (splitDescription desc 25).1.length ≤ 25) :=
  ⟨wrap_seam_decomp desc 25 (by omega), fun _ => line1_length_le desc 25⟩

theorem C5_wrap_reconstruction_witness :
    0 < jsLastIndexOfSpace (jsTrim "ab cd".data) 25 ∧
    (splitDescription "ab cd".data 25).1.length ≤ 25 :=
  ⟨by decide, (C5_wrap_reconstruction "ab cd".data).2 (by decide)⟩

end EtiquetasRural
